import Mathlib

/-!
Verification development for the GLAMDP grounded-language classifier models
(`dual_nn.py`, `dual_rnn.py`, `single_rnn.py`).

The three Python classes are shallowly embedded here:
* vocabulary construction (`build_vocabulary`) becomes list manipulation on
  `List String`, with the Python dict `{id2word[i]: i for i in range(...)}`
  modelled by `word2idFun` (later writes win, i.e. the *last* index of a token);
* the vectorizers become folds that write into zero-initialized `List ℕ`
  vectors, returning `Option` to model numpy `IndexError`;
* the TensorFlow session is treated as a black box: each `session.run` of a
  train op is an opaque loss/step oracle over an abstract parameter type `P`,
  and each `session.run` of a softmax tensor is an opaque read-only function;
* the `fit` epoch/minibatch loops (including the Python 2 float
  `ZeroDivisionError` raised by `curr_loss / batches` when `batches == 0`)
  are embedded as explicit recursion over epoch counts and minibatch ranges.
-/

namespace GLAMDP

/-- Reserved padding token, `PAD = "<<PAD>>"` in all three source files. -/
def PAD : String := "<<PAD>>"

/-- Reserved out-of-vocabulary token, `UNK = "<<UNK>>"`. -/
def UNK : String := "<<UNK>>"

/-- `PAD_ID = 0`. -/
def PAD_ID : ℕ := 0

/-- `UNK_ID = 1`. -/
def UNK_ID : ℕ := 1

/-- Index of the *last* occurrence of `w` in `l` (or `none`).  This models the
Python dict comprehension `{id2word[i]: i for i in range(len(id2word))}`:
when a token occurs twice in `id2word`, the later write wins. -/
def lastIdx (w : String) : List String → Option ℕ
  | [] => none
  | x :: xs =>
    match lastIdx w xs with
    | some j => some (j + 1)
    | none => if x = w then some 0 else none

/-- The `word2id` dictionary built from an `id2word` list: token ↦ its id. -/
def word2idFun (id2word : List String) (w : String) : Option ℕ :=
  lastIdx w id2word

/-- `word2id.get(w, UNK_ID)`: dictionary lookup with `UNK_ID` default. -/
def idOfD (id2word : List String) (w : String) : ℕ :=
  (word2idFun id2word w).getD UNK_ID

/-- All source-sentence tokens of the three parallel corpora, in corpus order.
This is the multiset the Python code pours into the `vocab` set
(`for lvl in self.lvl_dict: for n, _ in ...: for word in n: vocab.add(word)`). -/
def allSourceTokens (c0 c1 c2 : List (List String × List String)) : List String :=
  ((c0 ++ c1 ++ c2).map Prod.fst).flatten

/-- The `id2word` list: `[PAD, UNK] + list(vocab)`.  Python's `set` iteration
order is unspecified but fixed per run; we use `List.dedup` of the corpus-order
token stream as the deterministic representative of that order. -/
def id2wordOf (c0 c1 c2 : List (List String × List String)) : List String :=
  PAD :: UNK :: (allSourceTokens c0 c1 c2).dedup

/-- `len(self.word2id)`: the number of *distinct* keys of the `word2id` dict
(duplicate entries of `id2word` collapse, the last write winning). -/
def vocabSizeOf (c0 c1 c2 : List (List String × List String)) : ℕ :=
  ((id2wordOf c0 c1 c2).dedup).length

/-- `max_length` computed in `RNNDual.build_vocabulary`: running maximum of the
source-sequence lengths across all three corpora, starting from 0. -/
def maxLenOf (c0 c1 c2 : List (List String × List String)) : ℕ :=
  ((c0 ++ c1 ++ c2).map (fun e => e.1.length)).foldl max 0

/-- `max(self.lengths)`-style maximum for the single-level model: running
maximum of that corpus's own source lengths (equal to Python's `max` whenever
the corpus is nonempty). -/
def maxLenSingle (pc : List (List String × List String)) : ℕ :=
  (pc.map (fun e => e.1.length)).foldl max 0

/-- `self.lengths` for one corpus: the true source length of each example,
recorded separately (`lengths[lvl].append(len(n))` / list comprehension). -/
def lengthsOf (pc : List (List String × List String)) : List ℕ :=
  pc.map (fun e => e.1.length)

/-- `nvec[i] = x` on a numpy vector: in-bounds write, `IndexError` otherwise. -/
def setAt (v : List ℕ) (i x : ℕ) : Option (List ℕ) :=
  if i < v.length then some (v.set i x) else none

/-- `nvec[i] += 1` on a numpy vector (`IndexError` when out of bounds). -/
def incAt (v : List ℕ) (i : ℕ) : Option (List ℕ) :=
  if h : i < v.length then some (v.set i (v.get ⟨i, h⟩ + 1)) else none

/-- `for i in range(m): nvec[i] = f(i)` starting from vector `v`. -/
def fillSeq (f : ℕ → ℕ) : ℕ → List ℕ → Option (List ℕ)
  | 0, v => some v
  | m + 1, v => (fillSeq f m v).bind (fun u => setAt u m (f m))

/-- `for w in nl: nvec[word2id.get(w, UNK_ID)] += 1` starting from `v`. -/
def bowAux (idOf : String → ℕ) : List String → List ℕ → Option (List ℕ)
  | [], v => some v
  | w :: ws, v => (incAt v (idOf w)).bind (bowAux idOf ws)

/-- Bag-of-words vectorization of one source sequence (`NNDual.vectorize` /
`NNDual.score` input building): a zero vector of length `len(word2id)` whose
slots are incremented once per token occurrence. -/
def bowVector (idOf : String → ℕ) (size : ℕ) (nl : List String) : Option (List ℕ) :=
  bowAux idOf nl (List.replicate size 0)

/-- Sequence-mode vectorization of one training source sequence
(`RNNDual.vectorize` / `RNNClassifier.vectorize`): a zero (= `PAD_ID`) vector
of length `maxLen`, with slot `i` set to `word2id.get(nl[i], UNK_ID)` for every
`i < len(nl)`. -/
def seqVec (id2word : List String) (maxLen : ℕ) (nl : List String) : Option (List ℕ) :=
  fillSeq (fun i => idOfD id2word (nl.getD i "")) nl.length (List.replicate maxLen 0)

/-- Sequence-mode vectorization of a *scored* command (`RNNDual.score` /
`RNNClassifier.score`): same as `seqVec` but the write loop runs over
`range(min(len(cmd), max_len))`, silently truncating long inputs. -/
def scoreSeq (id2word : List String) (maxLen : ℕ) (cmd : List String) : Option (List ℕ) :=
  fillSeq (fun i => idOfD id2word (cmd.getD i "")) (min cmd.length maxLen)
    (List.replicate maxLen 0)

/-! ### Vocabulary lemmas -/

lemma lastIdx_isSome_of_mem {w : String} {l : List String} (h : w ∈ l) :
    (lastIdx w l).isSome := by
  induction l with
  | nil => simp at h
  | cons x xs ih =>
    rcases List.mem_cons.1 h with h | h
    · subst h
      cases hx : lastIdx w xs <;> simp [lastIdx, hx]
    · have hs := ih h
      cases hx : lastIdx w xs with
      | none => rw [hx] at hs; simp at hs
      | some j => simp [lastIdx, hx]

lemma lastIdx_spec {w : String} {l : List String} {i : ℕ} (h : lastIdx w l = some i) :
    i < l.length ∧ l.getD i "" = w := by
  induction l generalizing i with
  | nil => simp [lastIdx] at h
  | cons x xs ih =>
    rw [lastIdx] at h
    cases hx : lastIdx w xs with
    | some j =>
      rw [hx] at h
      simp only [Option.some.injEq] at h
      obtain ⟨hj, hg⟩ := ih hx
      subst h
      exact ⟨by simpa using Nat.succ_lt_succ hj, by simpa using hg⟩
    | none =>
      rw [hx] at h
      by_cases hxw : x = w
      · rw [if_pos hxw] at h
        injection h with h
        subst h
        exact ⟨by simp, by simpa using hxw⟩
      · rw [if_neg hxw] at h
        exact absurd h (by simp)

lemma lastIdx_of_nodup {l : List String} (hn : l.Nodup) {i : ℕ} (hi : i < l.length) :
    lastIdx (l.getD i "") l = some i := by
  have hmem : l.getD i "" ∈ l := by
    rw [List.getD_eq_getElem _ _ hi]
    exact List.getElem_mem hi
  obtain ⟨j, hj⟩ := Option.isSome_iff_exists.1 (lastIdx_isSome_of_mem hmem)
  obtain ⟨hjl, hjg⟩ := lastIdx_spec hj
  have : l[j] = l[i] := by
    rw [← List.getD_eq_getElem l "" hjl, ← List.getD_eq_getElem l "" hi, hjg]
  rw [hj]
  have hji := (List.Nodup.getElem_inj_iff hn).1 this
  rw [hji]

lemma token_mem_allSourceTokens {c0 c1 c2 : List (List String × List String)}
    {e : List String × List String} {w : String}
    (he : e ∈ c0 ++ c1 ++ c2) (hw : w ∈ e.1) : w ∈ allSourceTokens c0 c1 c2 := by
  unfold allSourceTokens
  rw [List.mem_flatten]
  exact ⟨e.1, List.mem_map_of_mem _ he, hw⟩

lemma id2word_nodup {c0 c1 c2 : List (List String × List String)}
    (hp : PAD ∉ allSourceTokens c0 c1 c2) (hu : UNK ∉ allSourceTokens c0 c1 c2) :
    (id2wordOf c0 c1 c2).Nodup := by
  unfold id2wordOf
  refine List.nodup_cons.2 ⟨?_, List.nodup_cons.2 ⟨?_, List.nodup_dedup _⟩⟩
  · intro h
    rcases List.mem_cons.1 h with h | h
    · exact absurd h (by decide)
    · exact hp (List.mem_dedup.1 h)
  · intro h
    exact hu (List.mem_dedup.1 h)

lemma vocabSize_eq_length {c0 c1 c2 : List (List String × List String)}
    (hp : PAD ∉ allSourceTokens c0 c1 c2) (hu : UNK ∉ allSourceTokens c0 c1 c2) :
    vocabSizeOf c0 c1 c2 = (id2wordOf c0 c1 c2).length := by
  unfold vocabSizeOf
  rw [List.dedup_eq_self.2 (id2word_nodup hp hu)]

/-- Claim C3, counterexample: with a source token equal to the reserved string
`"<<PAD>>"`, the `word2id` dict has only `2 = 1 + |distinct tokens|` keys
(`id2word = [PAD, UNK, PAD]` collapses), not `2 + |distinct tokens| = 3`, and
`PAD` is no longer mapped to id 0 (the later duplicate write wins). -/
theorem c3_vocabulary_counterexample :
    ¬ (vocabSizeOf [([PAD], ([] : List String))] [] [] =
          2 + ((allSourceTokens [([PAD], ([] : List String))] [] []).dedup).length
        ∧ word2idFun (id2wordOf [([PAD], ([] : List String))] [] []) PAD = some 0) := by
  decide

/-- Claim C3 (amended): provided no source token equals the reserved strings
`"<<PAD>>"` or `"<<UNK>>"`, the vocabulary built at construction has size
exactly `2 +` the number of distinct source tokens across all three corpora,
`PAD` has id 0, `UNK` has id 1, and `word2id`/`id2word` are mutually inverse. -/
theorem c3_vocabulary_amended (c0 c1 c2 : List (List String × List String))
    (hp : PAD ∉ allSourceTokens c0 c1 c2) (hu : UNK ∉ allSourceTokens c0 c1 c2) :
    vocabSizeOf c0 c1 c2 = 2 + ((allSourceTokens c0 c1 c2).dedup).length
    ∧ word2idFun (id2wordOf c0 c1 c2) PAD = some 0
    ∧ word2idFun (id2wordOf c0 c1 c2) UNK = some 1
    ∧ (∀ i, i < (id2wordOf c0 c1 c2).length →
        word2idFun (id2wordOf c0 c1 c2) ((id2wordOf c0 c1 c2).getD i "") = some i)
    ∧ (∀ w i, word2idFun (id2wordOf c0 c1 c2) w = some i →
        i < (id2wordOf c0 c1 c2).length ∧ (id2wordOf c0 c1 c2).getD i "" = w) := by
  have hn := id2word_nodup hp hu
  refine ⟨?_, ?_, ?_, ?_, ?_⟩
  · rw [vocabSize_eq_length hp hu]
    simp [id2wordOf]
    omega
  · exact lastIdx_of_nodup hn (i := 0) (by simp [id2wordOf])
  · exact lastIdx_of_nodup hn (i := 1) (by simp [id2wordOf])
  · intro i hi
    exact lastIdx_of_nodup hn hi
  · intro w i h
    exact lastIdx_spec h

/-- Witness for `c3_vocabulary_amended` at the concrete corpora
`L0 = [(["go", "north"], ["MOVE", "N"])]`, `L1 = L2 = []`. -/
theorem c3_vocabulary_amended_witness :
    vocabSizeOf [(["go", "north"], ["MOVE", "N"])] [] [] =
      2 + ((allSourceTokens [(["go", "north"], ["MOVE", "N"])] [] []).dedup).length
    ∧ word2idFun (id2wordOf [(["go", "north"], ["MOVE", "N"])] [] []) PAD = some 0 := by
  have h := c3_vocabulary_amended [(["go", "north"], ["MOVE", "N"])] [] []
    (by decide) (by decide)
  exact ⟨h.1, h.2.1⟩

/-! ### Bag-of-words vectorizer lemmas (NNDual.vectorize) -/

lemma getD_set_of_lt {v : List ℕ} {j i x : ℕ} (hi : i < v.length) :
    (v.set j x).getD i 0 = if j = i then x else v.getD i 0 := by
  rw [List.getD_eq_getElem _ _ (by simpa using hi), List.getElem_set]
  split_ifs with h
  · rfl
  · rw [List.getD_eq_getElem _ _ hi]

lemma incAt_some {v : List ℕ} {i : ℕ} (h : i < v.length) :
    incAt v i = some (v.set i (v.getD i 0 + 1)) := by
  rw [incAt, dif_pos h, List.get_eq_getElem, ← List.getD_eq_getElem v 0 h]

lemma bowAux_spec (idOf : String → ℕ) :
    ∀ (ws : List String) (v : List ℕ), (∀ w ∈ ws, idOf w < v.length) →
    ∃ u, bowAux idOf ws v = some u ∧ u.length = v.length ∧
      ∀ i, i < v.length →
        u.getD i 0 = v.getD i 0 + ws.countP (fun w => idOf w == i) := by
  intro ws
  induction ws with
  | nil => intro v _; exact ⟨v, rfl, rfl, by simp⟩
  | cons w ws ih =>
    intro v h
    have hw : idOf w < v.length := h w (by simp)
    have hlen : (v.set (idOf w) (v.getD (idOf w) 0 + 1)).length = v.length := by simp
    obtain ⟨u, hu, hul, hug⟩ := ih (v.set (idOf w) (v.getD (idOf w) 0 + 1))
      (by rw [hlen]; intro x hx; exact h x (List.mem_cons_of_mem _ hx))
    refine ⟨u, ?_, by rw [hul, hlen], ?_⟩
    · rw [bowAux, incAt_some hw, Option.some_bind, hu]
    · intro i hi
      rw [hug i (by rw [hlen]; exact hi), getD_set_of_lt hi, List.countP_cons]
      by_cases hcase : idOf w = i
      · rw [if_pos hcase, if_pos (by simpa using hcase), hcase]
        omega
      · rw [if_neg hcase, if_neg (by simpa using hcase)]
        omega

/-- Claim C2, counterexample: with the corpus
`[(["<<UNK>>"], []), (["b"], [])]` the token `"<<UNK>>"` collides with the
reserved `UNK` entry (`id2word = [PAD, UNK, UNK, "b"]`, `word2id` maps it to
id 2), so vectorizing the entry `["<<UNK>>"]` yields `[0, 0, 1]`: the value at
vocabulary id 1 — whose token `id2word[1] = "<<UNK>>"` occurs once in the
sequence — is 0, refuting the per-id occurrence-count property. -/
theorem c2_bow_counterexample :
    ¬ (∀ i, i < vocabSizeOf [([UNK], ([] : List String)), (["b"], [])] [] [] →
        ((bowVector
            (idOfD (id2wordOf [([UNK], ([] : List String)), (["b"], [])] [] []))
            (vocabSizeOf [([UNK], ([] : List String)), (["b"], [])] [] [])
            [UNK]).getD []).getD i 0 =
          List.count
            ((id2wordOf [([UNK], ([] : List String)), (["b"], [])] [] []).getD i "")
            [UNK]) := by
  decide

/-- Claim C2 (amended): provided no source token equals the reserved strings
`"<<PAD>>"` or `"<<UNK>>"`, every corpus entry's bag-of-words vector is built
successfully, has length equal to the vocabulary size, and its value at each
vocabulary id equals the number of occurrences of that id's token in the
source sequence (hence is nonzero only at ids of tokens present in it). -/
theorem c2_bow_amended (c0 c1 c2 : List (List String × List String))
    (hp : PAD ∉ allSourceTokens c0 c1 c2) (hu : UNK ∉ allSourceTokens c0 c1 c2)
    (e : List String × List String) (he : e ∈ c0 ++ c1 ++ c2) :
    (bowVector (idOfD (id2wordOf c0 c1 c2)) (vocabSizeOf c0 c1 c2) e.1).isSome = true
    ∧ ((bowVector (idOfD (id2wordOf c0 c1 c2)) (vocabSizeOf c0 c1 c2) e.1).getD
        []).length = vocabSizeOf c0 c1 c2
    ∧ (∀ i, i < vocabSizeOf c0 c1 c2 →
        ((bowVector (idOfD (id2wordOf c0 c1 c2)) (vocabSizeOf c0 c1 c2) e.1).getD
          []).getD i 0 = List.count ((id2wordOf c0 c1 c2).getD i "") e.1)
    ∧ (∀ i, i < vocabSizeOf c0 c1 c2 → (id2wordOf c0 c1 c2).getD i "" ∉ e.1 →
        ((bowVector (idOfD (id2wordOf c0 c1 c2)) (vocabSizeOf c0 c1 c2) e.1).getD
          []).getD i 0 = 0) := by
  have hn := id2word_nodup hp hu
  have hV := vocabSize_eq_length hp hu
  have hid : ∀ w ∈ e.1, idOfD (id2wordOf c0 c1 c2) w < vocabSizeOf c0 c1 c2 := by
    intro w hw
    have hmem : w ∈ id2wordOf c0 c1 c2 := by
      unfold id2wordOf
      exact List.mem_cons_of_mem _ (List.mem_cons_of_mem _
        (List.mem_dedup.2 (token_mem_allSourceTokens he hw)))
    obtain ⟨j, hj⟩ := Option.isSome_iff_exists.1 (lastIdx_isSome_of_mem hmem)
    rw [hV]
    simpa [idOfD, word2idFun, hj] using (lastIdx_spec hj).1
  obtain ⟨u, hu', hul, hug⟩ := bowAux_spec (idOfD (id2wordOf c0 c1 c2)) e.1
    (List.replicate (vocabSizeOf c0 c1 c2) 0) (by simpa using hid)
  have hbv : bowVector (idOfD (id2wordOf c0 c1 c2)) (vocabSizeOf c0 c1 c2) e.1 = some u :=
    hu'
  have hcount : ∀ i, i < vocabSizeOf c0 c1 c2 →
      u.getD i 0 = List.count ((id2wordOf c0 c1 c2).getD i "") e.1 := by
    intro i hi
    have := hug i (by simpa using hi)
    rw [this, List.getD_eq_getElem _ _ (by simpa using hi), List.getElem_replicate,
      List.count_eq_countP]
    rw [Nat.zero_add]
    apply List.countP_congr
    intro w hw
    have hwid := hid w hw
    constructor
    · intro hb
      have hcase : idOfD (id2wordOf c0 c1 c2) w = i := by simpa using hb
      have hmem : w ∈ id2wordOf c0 c1 c2 := by
        unfold id2wordOf
        exact List.mem_cons_of_mem _ (List.mem_cons_of_mem _
          (List.mem_dedup.2 (token_mem_allSourceTokens he hw)))
      obtain ⟨j, hj⟩ := Option.isSome_iff_exists.1 (lastIdx_isSome_of_mem hmem)
      have hji : j = i := by simpa [idOfD, word2idFun, hj] using hcase
      have := (lastIdx_spec hj).2
      rw [hji] at this
      simpa using this.symm
    · intro hb
      have hwi : w = (id2wordOf c0 c1 c2).getD i "" := by simpa using hb
      have : lastIdx ((id2wordOf c0 c1 c2).getD i "") (id2wordOf c0 c1 c2) = some i :=
        lastIdx_of_nodup hn (by rw [← hV]; exact hi)
      rw [← hwi] at this
      simp [idOfD, word2idFun, this]
  refine ⟨by rw [hbv]; rfl, ?_, ?_, ?_⟩
  · rw [hbv, Option.getD_some, hul, List.length_replicate]
  · intro i hi
    rw [hbv, Option.getD_some]
    exact hcount i hi
  · intro i hi hnot
    rw [hbv, Option.getD_some, hcount i hi]
    exact List.count_eq_zero.2 hnot

/-- Witness for `c2_bow_amended`: the entry `(["go", "north", "go"], _)` of the
concrete corpus `L0 = [(["go", "north", "go"], ["MOVE", "N"])]`. -/
theorem c2_bow_amended_witness :
    ((bowVector
        (idOfD (id2wordOf [(["go", "north", "go"], ["MOVE", "N"])] [] []))
        (vocabSizeOf [(["go", "north", "go"], ["MOVE", "N"])] [] [])
        ["go", "north", "go"]).getD []).length =
      vocabSizeOf [(["go", "north", "go"], ["MOVE", "N"])] [] []
    ∧ ((bowVector
        (idOfD (id2wordOf [(["go", "north", "go"], ["MOVE", "N"])] [] []))
        (vocabSizeOf [(["go", "north", "go"], ["MOVE", "N"])] [] [])
        ["go", "north", "go"]).getD []).getD 2 0 =
      List.count ((id2wordOf [(["go", "north", "go"], ["MOVE", "N"])] [] []).getD 2 "")
        ["go", "north", "go"] := by
  have h := c2_bow_amended [(["go", "north", "go"], ["MOVE", "N"])] [] []
    (by decide) (by decide) (["go", "north", "go"], ["MOVE", "N"]) (by decide)
  exact ⟨h.2.1, h.2.2.1 2 (by decide)⟩

/-! ### Sequence-mode vectorizer lemmas (RNNDual.vectorize, RNNClassifier.vectorize) -/

lemma getD_replicate_zero (n i : ℕ) : (List.replicate n (0 : ℕ)).getD i 0 = 0 := by
  rcases Nat.lt_or_ge i n with h | h
  · rw [List.getD_eq_getElem _ _ (by simpa using h), List.getElem_replicate]
  · exact List.getD_eq_default _ _ (by simpa using h)

lemma fillSeq_spec (f : ℕ → ℕ) :
    ∀ (m : ℕ) (v : List ℕ), m ≤ v.length →
    ∃ u, fillSeq f m v = some u ∧ u.length = v.length ∧
      (∀ i, i < m → u.getD i 0 = f i) ∧
      (∀ i, m ≤ i → u.getD i 0 = v.getD i 0) := by
  intro m
  induction m with
  | zero => exact fun v _ => ⟨v, rfl, rfl, by simp, fun i _ => rfl⟩
  | succ m ih =>
    intro v hm
    obtain ⟨u, hu, hul, hlt, hge⟩ := ih v (by omega)
    have hmu : m < u.length := by omega
    refine ⟨u.set m (f m), ?_, by simp [hul], ?_, ?_⟩
    · rw [fillSeq, hu, Option.some_bind, setAt, if_pos hmu]
    · intro i hi
      by_cases hcase : i = m
      · subst hcase
        rw [getD_set_of_lt hmu, if_pos rfl]
      · rw [getD_set_of_lt (by omega), if_neg (by omega)]
        exact hlt i (by omega)
    · intro i hi
      rcases Nat.lt_or_ge i u.length with hiu | hiu
      · rw [getD_set_of_lt hiu, if_neg (by omega)]
        exact hge i (by omega)
      · rw [List.getD_eq_default _ _ (by simpa using hiu),
          List.getD_eq_default _ _ (by omega)]

lemma foldl_max_init : ∀ (l : List ℕ) (b : ℕ), b ≤ l.foldl max b := by
  intro l
  induction l with
  | nil => exact fun b => Nat.le_refl b
  | cons y ys ih =>
    intro b
    exact Nat.le_trans (Nat.le_max_left b y) (ih (max b y))

lemma le_foldl_max {l : List ℕ} {x : ℕ} (hx : x ∈ l) : ∀ b, x ≤ l.foldl max b := by
  induction l with
  | nil => simp at hx
  | cons y ys ih =>
    intro b
    rcases List.mem_cons.1 hx with h | h
    · subst h
      exact Nat.le_trans (Nat.le_max_right b x) (foldl_max_init ys (max b x))
    · exact ih h (max b y)

lemma length_le_maxLenOf {c0 c1 c2 : List (List String × List String)}
    {e : List String × List String} (he : e ∈ c0 ++ c1 ++ c2) :
    e.1.length ≤ maxLenOf c0 c1 c2 := by
  unfold maxLenOf
  exact le_foldl_max (List.mem_map_of_mem (fun e => e.1.length) he) 0

lemma length_le_maxLenSingle {pc : List (List String × List String)}
    {e : List String × List String} (he : e ∈ pc) :
    e.1.length ≤ maxLenSingle pc := by
  unfold maxLenSingle
  exact le_foldl_max (List.mem_map_of_mem (fun e => e.1.length) he) 0

/-- Claim C5: in sequence mode, every corpus entry's vectorized input has
length equal to the maximum source length over the relevant corpus scope (all
three corpora for `RNNDual`, the single corpus for `RNNClassifier`), slot `i`
below the true length holds the id of the source token at position `i`, every
later slot holds `PAD_ID = 0`, and the true length of each example is recorded
separately in `lengths`. -/
theorem c5_sequence_vectorize (c0 c1 c2 pc : List (List String × List String)) :
    (∀ e, e ∈ c0 ++ c1 ++ c2 →
      (seqVec (id2wordOf c0 c1 c2) (maxLenOf c0 c1 c2) e.1).isSome = true
      ∧ ((seqVec (id2wordOf c0 c1 c2) (maxLenOf c0 c1 c2) e.1).getD []).length =
          maxLenOf c0 c1 c2
      ∧ (∀ i, i < e.1.length →
          ((seqVec (id2wordOf c0 c1 c2) (maxLenOf c0 c1 c2) e.1).getD []).getD i 0 =
            idOfD (id2wordOf c0 c1 c2) (e.1.getD i ""))
      ∧ (∀ i, e.1.length ≤ i →
          ((seqVec (id2wordOf c0 c1 c2) (maxLenOf c0 c1 c2) e.1).getD []).getD i 0 =
            PAD_ID))
    ∧ (∀ e, e ∈ pc →
      (seqVec (id2wordOf pc [] []) (maxLenSingle pc) e.1).isSome = true
      ∧ ((seqVec (id2wordOf pc [] []) (maxLenSingle pc) e.1).getD []).length =
          maxLenSingle pc
      ∧ (∀ i, i < e.1.length →
          ((seqVec (id2wordOf pc [] []) (maxLenSingle pc) e.1).getD []).getD i 0 =
            idOfD (id2wordOf pc [] []) (e.1.getD i ""))
      ∧ (∀ i, e.1.length ≤ i →
          ((seqVec (id2wordOf pc [] []) (maxLenSingle pc) e.1).getD []).getD i 0 =
            PAD_ID))
    ∧ (∀ j, j < c0.length → (lengthsOf c0).getD j 0 = (c0.getD j ([], [])).1.length)
    ∧ (∀ j, j < pc.length → (lengthsOf pc).getD j 0 = (pc.getD j ([], [])).1.length) := by
  have main : ∀ (L : List String) (maxLen : ℕ) (nl : List String),
      nl.length ≤ maxLen →
      (seqVec L maxLen nl).isSome = true
      ∧ ((seqVec L maxLen nl).getD []).length = maxLen
      ∧ (∀ i, i < nl.length →
          ((seqVec L maxLen nl).getD []).getD i 0 = idOfD L (nl.getD i ""))
      ∧ (∀ i, nl.length ≤ i → ((seqVec L maxLen nl).getD []).getD i 0 = PAD_ID) := by
    intro L maxLen nl hlen
    obtain ⟨u, hu, hul, hlt, hge⟩ := fillSeq_spec
      (fun i => idOfD L (nl.getD i "")) nl.length (List.replicate maxLen 0)
      (by simpa using hlen)
    have hsv : seqVec L maxLen nl = some u := hu
    refine ⟨by rw [hsv]; rfl, ?_, ?_, ?_⟩
    · rw [hsv, Option.getD_some, hul, List.length_replicate]
    · intro i hi
      rw [hsv, Option.getD_some]
      exact hlt i hi
    · intro i hi
      rw [hsv, Option.getD_some, hge i hi]
      exact getD_replicate_zero maxLen i
  refine ⟨fun e he => main _ _ _ (length_le_maxLenOf he),
    fun e he => main _ _ _ (length_le_maxLenSingle he), ?_, ?_⟩
  · intro j hj
    exact List.getD_map c0 (d := ([], [])) (fun e => e.1.length)
  · intro j hj
    exact List.getD_map pc (d := ([], [])) (fun e => e.1.length)

/-- Witness for `c5_sequence_vectorize` at
`L0 = [(["go", "north"], ["MOVE"])]`, `L1 = [(["b"], ["Y"])]`, `L2 = []`,
single corpus `[(["c"], ["Z"])]`, evaluating the entry `(["go", "north"], _)`. -/
theorem c5_sequence_vectorize_witness :
    ((seqVec
        (id2wordOf [(["go", "north"], ["MOVE"])] [(["b"], ["Y"])] [])
        (maxLenOf [(["go", "north"], ["MOVE"])] [(["b"], ["Y"])] [])
        ["go", "north"]).getD []).length =
      maxLenOf [(["go", "north"], ["MOVE"])] [(["b"], ["Y"])] []
    ∧ (lengthsOf [(["c"], ["Z"])]).getD 0 0 =
        (([(["c"], ["Z"])].getD 0 (([] : List String), ([] : List String))).1).length := by
  have h := c5_sequence_vectorize [(["go", "north"], ["MOVE"])] [(["b"], ["Y"])] []
    [(["c"], ["Z"])]
  exact ⟨(h.1 (["go", "north"], ["MOVE"]) (by decide)).2.1, h.2.2.2 0 (by decide)⟩

/-! ### Scoring: np.argmax and the two-stage decision procedure -/

/-- `np.argmax` over a probability vector: index of the maximum value, ties
broken by lowest index (a later value displaces the current best only when
strictly greater). `argmaxIdx [] = 0` (numpy would raise; the lists fed here
are nonempty in every use). -/
def argmaxIdx : List ℚ → ℕ
  | [] => 0
  | [_] => 0
  | v :: w :: ws =>
    if v < (w :: ws).getD (argmaxIdx (w :: ws)) 0 then argmaxIdx (w :: ws) + 1 else 0

lemma argmaxIdx_cons_cons (v w : ℚ) (ws : List ℚ) :
    argmaxIdx (v :: w :: ws) =
      if v < (w :: ws).getD (argmaxIdx (w :: ws)) 0 then argmaxIdx (w :: ws) + 1
      else 0 := rfl

lemma argmaxIdx_lt_length : ∀ (l : List ℚ), l ≠ [] → argmaxIdx l < l.length := by
  intro l
  induction l with
  | nil => intro h; exact absurd rfl h
  | cons v l ih =>
    intro _
    cases l with
    | nil => simp [argmaxIdx]
    | cons w ws =>
      rw [argmaxIdx_cons_cons]
      split_ifs
      · have := ih (by simp)
        simpa [Nat.succ_lt_succ_iff] using this
      · simp

lemma getD_le_argmaxIdx : ∀ (l : List ℚ) (j : ℕ), j < l.length →
    l.getD j 0 ≤ l.getD (argmaxIdx l) 0 := by
  intro l
  induction l with
  | nil => intro j hj; simp at hj
  | cons v l ih =>
    intro j hj
    cases l with
    | nil =>
      cases j with
      | zero => exact le_refl _
      | succ j => simp at hj
    | cons w ws =>
      rw [argmaxIdx_cons_cons]
      split_ifs with hlt
      · rw [List.getD_cons_succ]
        cases j with
        | zero => exact le_of_lt hlt
        | succ j => rw [List.getD_cons_succ]; exact ih j (by simpa using hj)
      · rw [List.getD_cons_zero]
        cases j with
        | zero => exact le_refl _
        | succ j =>
          rw [List.getD_cons_succ]
          exact le_trans (ih j (by simpa using hj)) (not_lt.1 hlt)

lemma getD_lt_of_lt_argmaxIdx : ∀ (l : List ℚ) (j : ℕ), j < argmaxIdx l →
    l.getD j 0 < l.getD (argmaxIdx l) 0 := by
  intro l
  induction l with
  | nil => intro j hj; simp [argmaxIdx] at hj
  | cons v l ih =>
    intro j hj
    cases l with
    | nil => simp [argmaxIdx] at hj
    | cons w ws =>
      rw [argmaxIdx_cons_cons] at hj ⊢
      split_ifs with hlt
      · rw [if_pos hlt] at hj
        rw [List.getD_cons_succ]
        cases j with
        | zero => exact hlt
        | succ j =>
          rw [List.getD_cons_succ]
          exact ih j (by omega)
      · rw [if_neg hlt] at hj
        omega

/-- Error conditions raisable by `score`: a numpy `IndexError` while writing
the input vector, or the `raise UnicodeError()` of the final `else` branch. -/
inductive ScoreErr
  | indexError
  | unicodeError
deriving DecidableEq

/-- The 4-tuple returned by the dual models' `score`:
(predicted command tokens, command probability, predicted level, level probability). -/
abbrev ScoreRes := List String × ℚ × ℕ × ℚ

/-- `exceptOk e = true` iff `e` is an `ok` result (no exception raised). -/
def exceptOk {ε α : Type} : Except ε α → Bool
  | Except.ok _ => true
  | Except.error _ => false

/-- The forward (inference) functions of the trained `NNDual` graph, opaque
functions of the model parameters `P` and the fed input vector: the four
softmax tensors `lvl_probs`, `l0_probs`, `l1_probs`, `l2_probs`, plus the
per-level command lists held by the model object. -/
structure NNHeads (P : Type) where
  lvlProbsOf : P → List ℕ → List ℚ
  l0ProbsOf : P → List ℕ → List ℚ
  l1ProbsOf : P → List ℕ → List ℚ
  l2ProbsOf : P → List ℕ → List ℚ
  l0_commands : List (List String)
  l1_commands : List (List String)
  l2_commands : List (List String)

/-- `session.run(fetches)` where the fetch list contains only forward tensors
(softmax outputs): the values are computed from the current variables and no
variable is assigned (no optimizer op is in the fetch list). -/
def sessRunFetch {P α : Type} (f : P → α) (s : P) : α × P := (f s, s)

/-- `NNDual.score`: build the bag-of-words vector, run the level selector,
dispatch on `pred_level ∈ {0, 1, 2}` running only that level's head, else
`raise UnicodeError()`.  The session state `P` is threaded explicitly. -/
def nnScore {P : Type} (M : NNHeads P) (id2word : List String) (vsize : ℕ)
    (nl_command : List String) (s : P) : Except ScoreErr ScoreRes × P :=
  match bowVector (idOfD id2word) vsize nl_command with
  | none => (Except.error ScoreErr.indexError, s)
  | some seq =>
    let r := sessRunFetch (fun p => M.lvlProbsOf p seq) s
    let pred_level := argmaxIdx r.1
    if pred_level = 0 then
      let r0 := sessRunFetch (fun p => M.l0ProbsOf p seq) r.2
      (Except.ok (M.l0_commands.getD (argmaxIdx r0.1) [], r0.1.getD (argmaxIdx r0.1) 0,
        pred_level, r.1.getD pred_level 0), r0.2)
    else if pred_level = 1 then
      let r1 := sessRunFetch (fun p => M.l1ProbsOf p seq) r.2
      (Except.ok (M.l1_commands.getD (argmaxIdx r1.1) [], r1.1.getD (argmaxIdx r1.1) 0,
        pred_level, r.1.getD pred_level 0), r1.2)
    else if pred_level = 2 then
      let r2 := sessRunFetch (fun p => M.l2ProbsOf p seq) r.2
      (Except.ok (M.l2_commands.getD (argmaxIdx r2.1) [], r2.1.getD (argmaxIdx r2.1) 0,
        pred_level, r.1.getD pred_level 0), r2.2)
    else (Except.error ScoreErr.unicodeError, r.2)

/-- The forward functions of the trained `RNNDual` graph.  The encoder
(embedding lookup + GRU cell) is the opaque `cell` with initial state `s0`;
each head is an opaque function of the parameters and the final GRU state. -/
structure RNNHeads (P S : Type) where
  s0 : S
  cell : P → S → ℕ → S
  lvlProbsOf : P → S → List ℚ
  l0ProbsOf : P → S → List ℚ
  l1ProbsOf : P → S → List ℚ
  l2ProbsOf : P → S → List ℚ
  l0_commands : List (List String)
  l1_commands : List (List String)
  l2_commands : List (List String)

/-- `tf.nn.dynamic_rnn` with `sequence_length = xlen` over a time dimension of
`xs.length` steps: step `i` applies the cell when `i < xlen` and passes the
state through unchanged otherwise. -/
def dynRnn {S : Type} (cell : S → ℕ → S) (s0 : S) (xs : List ℕ) (xlen : ℕ) : S :=
  (xs.enum).foldl (fun s it => if it.1 < xlen then cell s it.2 else s) s0

/-- `RNNDual.score`: truncating sequence vectorization, GRU encoding fed with
`X_len = len(nl_command)` (the untruncated length), level selection, then the
per-level dispatch with the `raise UnicodeError()` default. -/
def rnnScore {P S : Type} (M : RNNHeads P S) (id2word : List String) (maxLen : ℕ)
    (nl_command : List String) (p : P) : Except ScoreErr ScoreRes :=
  match scoreSeq id2word maxLen nl_command with
  | none => Except.error ScoreErr.indexError
  | some seq =>
    let h := dynRnn (M.cell p) M.s0 seq nl_command.length
    let lvl := M.lvlProbsOf p h
    let pred_level := argmaxIdx lvl
    if pred_level = 0 then
      let y := M.l0ProbsOf p h
      Except.ok (M.l0_commands.getD (argmaxIdx y) [], y.getD (argmaxIdx y) 0,
        pred_level, lvl.getD pred_level 0)
    else if pred_level = 1 then
      let y := M.l1ProbsOf p h
      Except.ok (M.l1_commands.getD (argmaxIdx y) [], y.getD (argmaxIdx y) 0,
        pred_level, lvl.getD pred_level 0)
    else if pred_level = 2 then
      let y := M.l2ProbsOf p h
      Except.ok (M.l2_commands.getD (argmaxIdx y) [], y.getD (argmaxIdx y) 0,
        pred_level, lvl.getD pred_level 0)
    else Except.error ScoreErr.unicodeError

/-- The forward functions of the trained `RNNClassifier` (single-head) graph. -/
structure SingleHeads (P S : Type) where
  s0 : S
  cell : P → S → ℕ → S
  probsOf : P → S → List ℚ
  commands : List (List String)

/-- `RNNClassifier.score`: truncating vectorization, GRU encoding with the
untruncated `X_len`, then a single argmax over the command distribution. -/
def singleScore {P S : Type} (M : SingleHeads P S) (id2word : List String)
    (maxLen : ℕ) (nl_command : List String) (p : P) :
    Except ScoreErr (List String × ℚ) :=
  match scoreSeq id2word maxLen nl_command with
  | none => Except.error ScoreErr.indexError
  | some seq =>
    let h := dynRnn (M.cell p) M.s0 seq nl_command.length
    let y := M.probsOf p h
    Except.ok (M.commands.getD (argmaxIdx y) [], y.getD (argmaxIdx y) 0)

/-- The probability head `score` runs for predicted level `k` (`l0_probs`,
`l1_probs` or `l2_probs`). -/
def nnLvlProbs {P : Type} (M : NNHeads P) : ℕ → P → List ℕ → List ℚ
  | 0 => M.l0ProbsOf
  | 1 => M.l1ProbsOf
  | _ => M.l2ProbsOf

/-- The command list indexed by predicted level `k` for `NNDual`. -/
def nnCommands {P : Type} (M : NNHeads P) : ℕ → List (List String)
  | 0 => M.l0_commands
  | 1 => M.l1_commands
  | _ => M.l2_commands

/-- The probability head `score` runs for predicted level `k` for `RNNDual`. -/
def rnnLvlProbs {P S : Type} (M : RNNHeads P S) : ℕ → P → S → List ℚ
  | 0 => M.l0ProbsOf
  | 1 => M.l1ProbsOf
  | _ => M.l2ProbsOf

/-- The command list indexed by predicted level `k` for `RNNDual`. -/
def rnnCommands {P S : Type} (M : RNNHeads P S) : ℕ → List (List String)
  | 0 => M.l0_commands
  | 1 => M.l1_commands
  | _ => M.l2_commands

/-- Claim C9: `score` is a pure query — it leaves the session state (the Model
Parameters) unchanged, and a second call on the resulting state returns an
identical output. -/
theorem c9_score_pure {P : Type} (M : NNHeads P) (id2word : List String) (vsize : ℕ)
    (nl_command : List String) (s : P) :
    (nnScore M id2word vsize nl_command s).2 = s
    ∧ (nnScore M id2word vsize nl_command
        ((nnScore M id2word vsize nl_command s).2)).1 =
      (nnScore M id2word vsize nl_command s).1 := by
  have hst : ∀ t : P, (nnScore M id2word vsize nl_command t).2 = t := by
    intro t
    unfold nnScore
    cases hbv : bowVector (idOfD id2word) vsize nl_command with
    | none => rfl
    | some seq =>
      simp only [sessRunFetch]
      split_ifs <;> rfl
  exact ⟨hst s, by rw [hst s]⟩

/-- Claim C4: `score` picks the predicted level as the argmax (lowest index on
ties) of the 3-way level-selector distribution, then the argmax command id of
only that level's distribution, and returns the 4-tuple (that level's command
tokens at that id, its probability, the level index, the level probability);
a predicted level outside `{0, 1, 2}` raises an error (`UnicodeError`) instead
of being silently handled.  Stated for both `NNDual.score` and
`RNNDual.score`. -/
theorem c4_two_stage_decision {P Q S : Type}
    (M : NNHeads P) (id2word : List String) (vsize : ℕ) (cmd : List String)
    (s : P) (seq : List ℕ) (lvl y : List ℚ) (k c : ℕ)
    (hseq : bowVector (idOfD id2word) vsize cmd = some seq)
    (hlvl : M.lvlProbsOf s seq = lvl)
    (hk : argmaxIdx lvl = k)
    (hy : nnLvlProbs M k s seq = y)
    (hc : argmaxIdx y = c)
    (h3 : lvl.length = 3)
    (hyne : y ≠ [])
    (hycmd : y.length = (nnCommands M k).length)
    (MR : RNNHeads Q S) (id2wordR : List String) (maxLenR : ℕ) (cmdR : List String)
    (q : Q) (seqR : List ℕ) (hR : S) (lvlR yR : List ℚ) (kR cR : ℕ)
    (hseqR : scoreSeq id2wordR maxLenR cmdR = some seqR)
    (hdynR : dynRnn (MR.cell q) MR.s0 seqR cmdR.length = hR)
    (hlvlR : MR.lvlProbsOf q hR = lvlR)
    (hkR : argmaxIdx lvlR = kR)
    (hyR : rnnLvlProbs MR kR q hR = yR)
    (hcR : argmaxIdx yR = cR)
    (h3R : lvlR.length = 3)
    (hyneR : yR ≠ [])
    (hycmdR : yR.length = (rnnCommands MR kR).length) :
    nnScore M id2word vsize cmd s =
      (Except.ok ((nnCommands M k).getD c [], y.getD c 0, k, lvl.getD k 0), s)
    ∧ rnnScore MR id2wordR maxLenR cmdR q =
      Except.ok ((rnnCommands MR kR).getD cR [], yR.getD cR 0, kR, lvlR.getD kR 0)
    ∧ k < 3 ∧ kR < 3
    ∧ c < (nnCommands M k).length ∧ cR < (rnnCommands MR kR).length
    ∧ (∀ j, j < lvl.length → lvl.getD j 0 ≤ lvl.getD k 0)
    ∧ (∀ j, j < k → lvl.getD j 0 < lvl.getD k 0)
    ∧ (∀ j, j < lvlR.length → lvlR.getD j 0 ≤ lvlR.getD kR 0)
    ∧ (∀ j, j < kR → lvlR.getD j 0 < lvlR.getD kR 0)
    ∧ (∀ (cmd' : List String) (s' : P) (seq' : List ℕ),
        bowVector (idOfD id2word) vsize cmd' = some seq' →
        3 ≤ argmaxIdx (M.lvlProbsOf s' seq') →
        nnScore M id2word vsize cmd' s' = (Except.error ScoreErr.unicodeError, s'))
    ∧ (∀ (cmd' : List String) (q' : Q) (seq' : List ℕ),
        scoreSeq id2wordR maxLenR cmd' = some seq' →
        3 ≤ argmaxIdx (MR.lvlProbsOf q'
          (dynRnn (MR.cell q') MR.s0 seq' cmd'.length)) →
        rnnScore MR id2wordR maxLenR cmd' q' = Except.error ScoreErr.unicodeError) := by
  have hk3 : k < 3 := by
    rw [← hk, ← h3]
    exact argmaxIdx_lt_length lvl (List.length_pos.1 (by omega))
  have hkR3 : kR < 3 := by
    rw [← hkR, ← h3R]
    exact argmaxIdx_lt_length lvlR (List.length_pos.1 (by omega))
  have hcb : c < (nnCommands M k).length := by
    rw [← hycmd, ← hc]
    exact argmaxIdx_lt_length y hyne
  have hcbR : cR < (rnnCommands MR kR).length := by
    rw [← hycmdR, ← hcR]
    exact argmaxIdx_lt_length yR hyneR
  refine ⟨?_, ?_, hk3, hkR3, hcb, hcbR, ?_, ?_, ?_, ?_, ?_, ?_⟩
  · simp only [nnScore, hseq, sessRunFetch, hlvl, hk]
    interval_cases k
    · rw [if_pos rfl]
      rw [show M.l0ProbsOf s seq = y from hy, hc]
      rfl
    · rw [if_neg (by omega), if_pos rfl]
      rw [show M.l1ProbsOf s seq = y from hy, hc]
      rfl
    · rw [if_neg (by omega), if_neg (by omega), if_pos rfl]
      rw [show M.l2ProbsOf s seq = y from hy, hc]
      rfl
  · simp only [rnnScore, hseqR, hdynR, hlvlR, hkR]
    interval_cases kR
    · rw [if_pos rfl]
      rw [show MR.l0ProbsOf q hR = yR from hyR, hcR]
      rfl
    · rw [if_neg (by omega), if_pos rfl]
      rw [show MR.l1ProbsOf q hR = yR from hyR, hcR]
      rfl
    · rw [if_neg (by omega), if_neg (by omega), if_pos rfl]
      rw [show MR.l2ProbsOf q hR = yR from hyR, hcR]
      rfl
  · intro j hj
    rw [← hk]
    exact getD_le_argmaxIdx lvl j hj
  · intro j hj
    rw [← hk]
    exact getD_lt_of_lt_argmaxIdx lvl j (by omega)
  · intro j hj
    rw [← hkR]
    exact getD_le_argmaxIdx lvlR j hj
  · intro j hj
    rw [← hkR]
    exact getD_lt_of_lt_argmaxIdx lvlR j (by omega)
  · intro cmd' s' seq' hbv hge
    simp only [nnScore, hbv, sessRunFetch]
    rw [if_neg (by omega), if_neg (by omega), if_neg (by omega)]
  · intro cmd' q' seq' hsq hge
    simp only [rnnScore, hsq]
    rw [if_neg (by omega), if_neg (by omega), if_neg (by omega)]

/-- Witness for `c4_two_stage_decision` on concrete one/two-command models. -/
theorem c4_two_stage_decision_witness :
    nnScore
      (⟨fun _ _ => [5, 3, 1], fun _ _ => [1, 4], fun _ _ => [1],
        fun _ _ => [1], [["X"], ["Y"]], [["Z"]], [["W"]]⟩ : NNHeads Unit)
      [PAD, UNK, "a"] 3 ["a"] () =
      (Except.ok ((["Y"] : List String), (4 : ℚ), 0, (5 : ℚ)), ())
    ∧ rnnScore
      (⟨0, fun _ s t => s + t + 1, fun _ _ => [0, 7, 2], fun _ _ => [1],
        fun _ _ => [2, 6], fun _ _ => [1], [["A"]], [["B"], ["C"]],
        [["D"]]⟩ : RNNHeads Unit ℕ)
      [PAD, UNK] 1 ["b"] () =
      Except.ok ((["C"] : List String), (6 : ℚ), 1, (7 : ℚ)) := by
  have h := c4_two_stage_decision
    (⟨fun _ _ => [5, 3, 1], fun _ _ => [1, 4], fun _ _ => [1],
      fun _ _ => [1], [["X"], ["Y"]], [["Z"]], [["W"]]⟩ : NNHeads Unit)
    [PAD, UNK, "a"] 3 ["a"] () [0, 0, 1] [5, 3, 1] [1, 4] 0 1
    (by decide) rfl (by decide) rfl (by decide) rfl (by decide) rfl
    (⟨0, fun _ s t => s + t + 1, fun _ _ => [0, 7, 2], fun _ _ => [1],
      fun _ _ => [2, 6], fun _ _ => [1], [["A"]], [["B"], ["C"]],
      [["D"]]⟩ : RNNHeads Unit ℕ)
    [PAD, UNK] 1 ["b"] () [1] 2 [0, 7, 2] [2, 6] 1 1
    (by decide) (by decide) rfl (by decide) rfl (by decide) rfl (by decide) rfl
  exact ⟨h.1, h.2.1⟩

/-! ### Silent truncation at inference (claim C6) -/

lemma enumFrom_foldl_full {S : Type} (cell : S → ℕ → S) (xlen : ℕ) :
    ∀ (xs : List ℕ) (k : ℕ) (s : S), k + xs.length ≤ xlen →
    (List.enumFrom k xs).foldl (fun s it => if it.1 < xlen then cell s it.2 else s) s =
      xs.foldl cell s := by
  intro xs
  induction xs with
  | nil => intro k s _; rfl
  | cons x xs ih =>
    intro k s h
    have hlen : k + xs.length + 1 ≤ xlen := by
      simp only [List.length_cons] at h
      omega
    rw [List.enumFrom_cons]
    simp only [List.foldl_cons]
    rw [if_pos (show k < xlen by omega)]
    exact ih (k + 1) (cell s x) (by omega)

lemma dynRnn_of_le {S : Type} (cell : S → ℕ → S) (s0 : S) (xs : List ℕ) {xlen : ℕ}
    (h : xs.length ≤ xlen) : dynRnn cell s0 xs xlen = xs.foldl cell s0 := by
  unfold dynRnn
  exact enumFrom_foldl_full cell xlen xs 0 s0 (by omega)

lemma getD_take_of_lt {l : List String} {n i : ℕ} (h : i < n) :
    (l.take n).getD i "" = l.getD i "" := by
  rw [List.getD_eq_getD_get?, List.getD_eq_getD_get?, List.get?_eq_getElem?,
    List.get?_eq_getElem?, List.getElem?_take_of_lt h]

lemma fillSeq_congr : ∀ (m : ℕ) (v : List ℕ) (f g : ℕ → ℕ),
    (∀ i, i < m → f i = g i) → fillSeq f m v = fillSeq g m v := by
  intro m
  induction m with
  | zero => intros; rfl
  | succ m ih =>
    intro v f g h
    rw [fillSeq, fillSeq, ih v f g (fun i hi => h i (by omega)), h m (by omega)]

lemma scoreSeq_take {id2word : List String} {maxLen : ℕ} {cmd : List String}
    (h : maxLen ≤ cmd.length) :
    scoreSeq id2word maxLen (cmd.take maxLen) = scoreSeq id2word maxLen cmd := by
  unfold scoreSeq
  rw [List.length_take]
  rw [Nat.min_eq_left h, Nat.min_eq_left (Nat.le_refl maxLen),
    Nat.min_eq_right h]
  exact fillSeq_congr maxLen _ _ _
    (fun i hi => by rw [getD_take_of_lt hi])

lemma scoreSeq_spec (id2word : List String) (maxLen : ℕ) (cmd : List String) :
    ∃ v, scoreSeq id2word maxLen cmd = some v ∧ v.length = maxLen := by
  obtain ⟨u, hu, hul, _, _⟩ := fillSeq_spec
    (fun i => idOfD id2word (cmd.getD i "")) (min cmd.length maxLen)
    (List.replicate maxLen 0) (by simp)
  exact ⟨u, hu, by rw [hul, List.length_replicate]⟩

/-- Claim C6: for an input longer than the fitted maximum sequence length,
`score` in the sequence-mode variants does not fail and returns exactly what it
returns on the input truncated to the fitted maximum length (only the first
`max_len` tokens influence the result). -/
theorem c6_silent_truncation {P S Q T : Type} (M : RNNHeads P S) (Ms : SingleHeads Q T)
    (id2word : List String) (maxLen : ℕ) (cmd : List String) (p : P) (q : Q)
    (hover : maxLen < cmd.length)
    (h3 : ∀ hs : S, (M.lvlProbsOf p hs).length = 3) :
    rnnScore M id2word maxLen cmd p = rnnScore M id2word maxLen (cmd.take maxLen) p
    ∧ exceptOk (rnnScore M id2word maxLen cmd p) = true
    ∧ singleScore Ms id2word maxLen cmd q =
        singleScore Ms id2word maxLen (cmd.take maxLen) q
    ∧ exceptOk (singleScore Ms id2word maxLen cmd q) = true := by
  obtain ⟨v, hv, hvl⟩ := scoreSeq_spec id2word maxLen cmd
  have hv' : scoreSeq id2word maxLen (cmd.take maxLen) = some v := by
    rw [scoreSeq_take (le_of_lt hover), hv]
  have hlen : (cmd.take maxLen).length = maxLen := by
    rw [List.length_take]
    exact Nat.min_eq_left (le_of_lt hover)
  have hdyn : dynRnn (M.cell p) M.s0 v cmd.length =
      dynRnn (M.cell p) M.s0 v (cmd.take maxLen).length := by
    rw [dynRnn_of_le _ _ _ (by omega), dynRnn_of_le _ _ _ (by omega)]
  have hdynS : dynRnn (Ms.cell q) Ms.s0 v cmd.length =
      dynRnn (Ms.cell q) Ms.s0 v (cmd.take maxLen).length := by
    rw [dynRnn_of_le _ _ _ (by omega), dynRnn_of_le _ _ _ (by omega)]
  have hok : exceptOk (rnnScore M id2word maxLen cmd p) = true := by
    simp only [rnnScore, hv]
    have ha : argmaxIdx (M.lvlProbsOf p (dynRnn (M.cell p) M.s0 v cmd.length)) < 3 := by
      rw [← h3 (dynRnn (M.cell p) M.s0 v cmd.length)]
      exact argmaxIdx_lt_length _ (List.length_pos.1 (by rw [h3]; omega))
    rcases (by omega :
        argmaxIdx (M.lvlProbsOf p (dynRnn (M.cell p) M.s0 v cmd.length)) = 0
        ∨ argmaxIdx (M.lvlProbsOf p (dynRnn (M.cell p) M.s0 v cmd.length)) = 1
        ∨ argmaxIdx (M.lvlProbsOf p (dynRnn (M.cell p) M.s0 v cmd.length)) = 2)
      with h | h | h <;> simp [h, exceptOk]
  refine ⟨?_, hok, ?_, ?_⟩
  · simp only [rnnScore, hv, hv']
    rw [hdyn]
  · simp only [singleScore, hv, hv']
    rw [hdynS]
  · simp only [singleScore, hv]
    rfl

/-- Witness for `c6_silent_truncation` on a concrete model with `max_len = 1`
and the two-token input `["a", "b"]`. -/
theorem c6_silent_truncation_witness :
    rnnScore
      (⟨0, fun _ s t => s + t + 1, fun _ _ => [0, 7, 2], fun _ _ => [1],
        fun _ _ => [2, 6], fun _ _ => [1], [["A"]], [["B"], ["C"]],
        [["D"]]⟩ : RNNHeads Unit ℕ)
      [PAD, UNK] 1 ["a", "b"] () =
    rnnScore
      (⟨0, fun _ s t => s + t + 1, fun _ _ => [0, 7, 2], fun _ _ => [1],
        fun _ _ => [2, 6], fun _ _ => [1], [["A"]], [["B"], ["C"]],
        [["D"]]⟩ : RNNHeads Unit ℕ)
      [PAD, UNK] 1 (["a", "b"].take 1) ()
    ∧ exceptOk (rnnScore
      (⟨0, fun _ s t => s + t + 1, fun _ _ => [0, 7, 2], fun _ _ => [1],
        fun _ _ => [2, 6], fun _ _ => [1], [["A"]], [["B"], ["C"]],
        [["D"]]⟩ : RNNHeads Unit ℕ)
      [PAD, UNK] 1 ["a", "b"] ()) = true := by
  have h := c6_silent_truncation
    (⟨0, fun _ s t => s + t + 1, fun _ _ => [0, 7, 2], fun _ _ => [1],
      fun _ _ => [2, 6], fun _ _ => [1], [["A"]], [["B"], ["C"]],
      [["D"]]⟩ : RNNHeads Unit ℕ)
    (⟨0, fun _ s t => s + t, fun _ _ => [1], [["E"]]⟩ : SingleHeads Unit ℕ)
    [PAD, UNK] 1 ["a", "b"] () () (by decide) (fun _ => rfl)
  exact ⟨h.1, h.2.1⟩

/-! ### The fit training loops -/

/-- Python `range(start, stop, step)` for a positive `step` (the only form the
`fit` loops use); with truncated ℕ subtraction in the element count, a range
whose Python stop would be negative comes out empty, exactly as in Python. -/
def pyRange (start stop step : ℕ) : List ℕ :=
  (List.range ((stop - start + step - 1) / step)).map (fun k => start + k * step)

/-- The minibatch `(start, end)` pairs
`zip(range(0, n - bsz, bsz), range(bsz, n, bsz))` used by all three `fit`s. -/
def batchRanges (n bsz : ℕ) : List (ℕ × ℕ) :=
  List.zip (pyRange 0 (n - bsz) bsz) (pyRange bsz n bsz)

/-- Hyperparameters and opaque TensorFlow pieces of the two dual `fit` loops:
batch size, epoch count, the three level dataset sizes, and — for the black-box
`session.run([loss_k + lvl_loss, train_op_k], ...)` — an opaque fetched loss
and an opaque parameter update, as functions of the current parameters, the
level index and the `(start, end)` slice. -/
structure DualCfg (P : Type) where
  bsz : ℕ
  epochs : ℕ
  l0_len : ℕ
  l1_len : ℕ
  l2_len : ℕ
  lossOf : P → ℕ → ℕ × ℕ → ℚ
  stepOf : P → ℕ → ℕ × ℕ → P

/-- The dataset size of level `k ∈ {0, 1, 2}`. -/
def DualCfg.lenAt {P : Type} (cfg : DualCfg P) : ℕ → ℕ
  | 0 => cfg.l0_len
  | 1 => cfg.l1_len
  | _ => cfg.l2_len

/-- Session state threaded through `NNDual.fit`: the Model Parameters plus the
trace of executed optimizer steps `(level, start, end)`, most recent first. -/
structure FitSt (P : Type) where
  params : P
  trace : List (ℕ × ℕ × ℕ)

/-- One guarded `session.run([loss_k + lvl_loss, train_op_k], ...)`:
the fetched loss value together with the updated session state. -/
def doStep {P : Type} (cfg : DualCfg P) (lvl : ℕ) (se : ℕ × ℕ) (st : FitSt P) :
    ℚ × FitSt P :=
  (cfg.lossOf st.params lvl se,
    ⟨cfg.stepOf st.params lvl se, (lvl, se.1, se.2) :: st.trace⟩)

/-- One minibatch position of `NNDual.fit`: `l0_loss, l1_loss, l2_loss` are
reset to 0 at the position, each level trains only when
`end < len(self.train_x[lvl])`, then
`curr_loss += l0_loss + l1_loss + l2_loss; batches += 1`. -/
def nnPos {P : Type} (cfg : DualCfg P) (x : FitSt P × ℚ × ℕ) (se : ℕ × ℕ) :
    FitSt P × ℚ × ℕ :=
  let r0 := if se.2 < cfg.l0_len then doStep cfg 0 se x.1 else (0, x.1)
  let r1 := if se.2 < cfg.l1_len then doStep cfg 1 se r0.2 else (0, r0.2)
  let r2 := if se.2 < cfg.l2_len then doStep cfg 2 se r1.2 else (0, r1.2)
  (r2.2, x.2.1 + (r0.1 + r1.1 + r2.1), x.2.2 + 1)

/-- One epoch of `NNDual.fit`: the minibatch pairs are built from
`len(self.train_x['L0'][:chunk_size]) = min chunk l0_len`.
Returns (state, curr_loss, batches). -/
def nnEpoch {P : Type} (cfg : DualCfg P) (chunk : ℕ) (st : FitSt P) :
    FitSt P × ℚ × ℕ :=
  (batchRanges (min chunk cfg.l0_len) cfg.bsz).foldl (nnPos cfg) (st, 0, 0)

/-- Session state of `RNNDual.fit`: parameters, step trace, and the three loss
variables `l0_loss, l1_loss, l2_loss`, which that source initializes once
*before* the epoch loop and never resets. -/
structure RnnSt (P : Type) where
  params : P
  trace : List (ℕ × ℕ × ℕ)
  l0_loss : ℚ
  l1_loss : ℚ
  l2_loss : ℚ

/-- One minibatch position of `RNNDual.fit`: each level overwrites its loss
variable only when `end < len(train_x[lvl])` — otherwise the *stale* value is
kept — then `curr_loss += l0_loss + l1_loss + l2_loss; batches += 1`. -/
def rnnPos {P : Type} (cfg : DualCfg P) (x : RnnSt P × ℚ × ℕ) (se : ℕ × ℕ) :
    RnnSt P × ℚ × ℕ :=
  let s0 := x.1
  let s1 := if se.2 < cfg.l0_len then
      { s0 with l0_loss := cfg.lossOf s0.params 0 se,
                params := cfg.stepOf s0.params 0 se,
                trace := (0, se.1, se.2) :: s0.trace } else s0
  let s2 := if se.2 < cfg.l1_len then
      { s1 with l1_loss := cfg.lossOf s1.params 1 se,
                params := cfg.stepOf s1.params 1 se,
                trace := (1, se.1, se.2) :: s1.trace } else s1
  let s3 := if se.2 < cfg.l2_len then
      { s2 with l2_loss := cfg.lossOf s2.params 2 se,
                params := cfg.stepOf s2.params 2 se,
                trace := (2, se.1, se.2) :: s2.trace } else s2
  (s3, x.2.1 + (s3.l0_loss + s3.l1_loss + s3.l2_loss), x.2.2 + 1)

/-- One epoch of `RNNDual.fit`: the minibatch pairs are built from
`zip(range(0, chunk_size - bsz, bsz), range(bsz, chunk_size, bsz))` —
chunk-relative, *not* dataset-relative. -/
def rnnEpoch {P : Type} (cfg : DualCfg P) (chunk : ℕ) (st : RnnSt P) :
    RnnSt P × ℚ × ℕ :=
  (batchRanges chunk cfg.bsz).foldl (rnnPos cfg) (st, 0, 0)

/-- `RNNClassifier.fit` configuration: one dataset of size `n`, opaque loss and
update for the single `session.run([loss, train_op], ...)`. -/
structure SingleCfg (P : Type) where
  bsz : ℕ
  epochs : ℕ
  n : ℕ
  lossOf : P → ℕ × ℕ → ℚ
  stepOf : P → ℕ × ℕ → P

/-- Session state of `RNNClassifier.fit`. -/
structure SingleSt (P : Type) where
  params : P
  trace : List (ℕ × ℕ)

/-- One minibatch position of `RNNClassifier.fit` (a step always executes). -/
def singlePos {P : Type} (cfg : SingleCfg P) (x : SingleSt P × ℚ × ℕ) (se : ℕ × ℕ) :
    SingleSt P × ℚ × ℕ :=
  (⟨cfg.stepOf x.1.params se, se :: x.1.trace⟩,
    x.2.1 + cfg.lossOf x.1.params se, x.2.2 + 1)

/-- One epoch of `RNNClassifier.fit` (minibatch pairs from
`len(self.train_x[:chunk_size]) = min chunk n`). -/
def singleEpoch {P : Type} (cfg : SingleCfg P) (chunk : ℕ) (st : SingleSt P) :
    SingleSt P × ℚ × ℕ :=
  (batchRanges (min chunk cfg.n) cfg.bsz).foldl (singlePos cfg) (st, 0, 0)

/-- `for e in range(epochs): <epoch body>; print(..., curr_loss / batches)`:
after each epoch body the Python 2 float division `curr_loss / batches` raises
`ZeroDivisionError` when `batches == 0.0`, aborting `fit`; otherwise the
epoch's average loss is reported and the next epoch runs.  Returns the final
state, the reported averages, and whether the call aborted with
`ZeroDivisionError`. -/
def runEpochs {σ : Type} (epoch : σ → σ × ℚ × ℕ) : ℕ → σ → σ × List ℚ × Bool
  | 0, st => (st, [], false)
  | n + 1, st =>
    let r := epoch st
    if r.2.2 = 0 then (r.1, [], true)
    else
      let rest := runEpochs epoch n r.1
      (rest.1, (r.2.1 / (r.2.2 : ℚ)) :: rest.2.1, rest.2.2)

/-- `NNDual.fit(chunk_size)` starting from parameters `p`. -/
def nnFit {P : Type} (cfg : DualCfg P) (chunk : ℕ) (p : P) :
    FitSt P × List ℚ × Bool :=
  runEpochs (nnEpoch cfg chunk) cfg.epochs ⟨p, []⟩

/-- `RNNDual.fit(chunk_size)` starting from parameters `p`
(`l0_loss, l1_loss, l2_loss = 0, 0, 0` once, before the epoch loop). -/
def rnnFit {P : Type} (cfg : DualCfg P) (chunk : ℕ) (p : P) :
    RnnSt P × List ℚ × Bool :=
  runEpochs (rnnEpoch cfg chunk) cfg.epochs ⟨p, [], 0, 0, 0⟩

/-- `RNNClassifier.fit(chunk_size)` starting from parameters `p`. -/
def singleFit {P : Type} (cfg : SingleCfg P) (chunk : ℕ) (p : P) :
    SingleSt P × List ℚ × Bool :=
  runEpochs (singleEpoch cfg chunk) cfg.epochs ⟨p, []⟩

/-- Number of executed optimizer steps for level `k` in a step trace. -/
def lvlCount (k : ℕ) (tr : List (ℕ × ℕ × ℕ)) : ℕ :=
  (tr.filter (fun t => t.1 == k)).length

/-- Claim C1 (code bug in `RNNDual.fit`): with batch size 1, chunk size 4,
dataset sizes |L0| = 4, |L1| = |L2| = 2 and unit loss for every executed step,
the epoch visits positions (0,1), (1,2), (2,3) and L1/L2 run out of data after
the first one.  `NNDual.fit` accumulates 3 + 1 + 1 = 5 (an exhausted level
contributes zero), but `RNNDual.fit` accumulates 3 + 3 + 3 = 9: the stale
`l1_loss`/`l2_loss` values (initialized before the epoch loop, never reset per
position) are re-added at every later position, even though only one optimizer
step was executed for L1 (third conjunct). -/
theorem c1_rnn_stale_loss_contribution :
    (rnnEpoch (⟨1, 1, 4, 2, 2, fun _ _ _ => 1, fun _ _ _ => ()⟩ : DualCfg Unit) 4
        ⟨(), [], 0, 0, 0⟩).2.1 = 9
    ∧ (nnEpoch (⟨1, 1, 4, 2, 2, fun _ _ _ => 1, fun _ _ _ => ()⟩ : DualCfg Unit) 4
        ⟨(), []⟩).2.1 = 5
    ∧ lvlCount 1 ((rnnEpoch (⟨1, 1, 4, 2, 2, fun _ _ _ => 1, fun _ _ _ => ()⟩ :
        DualCfg Unit) 4 ⟨(), [], 0, 0, 0⟩).1.trace) = 1 := by
  have hbr : batchRanges 4 1 = [(0, 1), (1, 2), (2, 3)] := by decide
  refine ⟨?_, ?_, ?_⟩
  · rw [rnnEpoch]
    norm_num [hbr, rnnPos]
  · rw [nnEpoch]
    norm_num [hbr, nnPos, doStep]
  · rw [rnnEpoch]
    norm_num [hbr, rnnPos, lvlCount]

/-! ### Minibatch-range and epoch-loop lemmas (claims C7, C8, C10) -/

lemma batchRanges_nil {n bsz : ℕ} (hb : 0 < bsz) (h : n ≤ bsz) :
    batchRanges n bsz = [] := by
  unfold batchRanges pyRange
  rw [Nat.sub_eq_zero_of_le h, Nat.div_eq_of_lt (by omega)]
  simp

lemma mem_batchRanges_snd_ge {n bsz : ℕ} {se : ℕ × ℕ} (h : se ∈ batchRanges n bsz) :
    bsz ≤ se.2 := by
  obtain ⟨a, b⟩ := se
  unfold batchRanges at h
  have h2 := (List.of_mem_zip h).2
  unfold pyRange at h2
  obtain ⟨k, _, hk⟩ := List.mem_map.1 h2
  omega

lemma runEpochs_of_trivial {σ : Type} (epoch : σ → σ × ℚ × ℕ)
    (h : ∀ st, epoch st = (st, 0, 0)) :
    ∀ (n : ℕ) (st : σ), (runEpochs epoch n st).1 = st
      ∧ (0 < n → (runEpochs epoch n st).2.2 = true) := by
  intro n st
  cases n with
  | zero => exact ⟨rfl, fun h0 => absurd h0 (by omega)⟩
  | succ n =>
    simp only [runEpochs, h st]
    exact ⟨rfl, fun _ => rfl⟩

lemma runEpochs_inv {σ : Type} (epoch : σ → σ × ℚ × ℕ) (μ : σ → ℕ)
    (h : ∀ st, μ (epoch st).1 = μ st) :
    ∀ (n : ℕ) (st : σ), μ (runEpochs epoch n st).1 = μ st := by
  intro n
  induction n with
  | zero => intro st; rfl
  | succ n ih =>
    intro st
    simp only [runEpochs]
    split_ifs with hb
    · exact h st
    · rw [ih (epoch st).1]
      exact h st

lemma nnEpoch_of_nil {P : Type} (cfg : DualCfg P) (chunk : ℕ)
    (h : batchRanges (min chunk cfg.l0_len) cfg.bsz = []) :
    ∀ st, nnEpoch cfg chunk st = (st, 0, 0) := by
  intro st
  unfold nnEpoch
  rw [h]
  rfl

lemma rnnEpoch_of_nil {P : Type} (cfg : DualCfg P) (chunk : ℕ)
    (h : batchRanges chunk cfg.bsz = []) :
    ∀ st, rnnEpoch cfg chunk st = (st, 0, 0) := by
  intro st
  unfold rnnEpoch
  rw [h]
  rfl

lemma singleEpoch_of_nil {P : Type} (cfg : SingleCfg P) (chunk : ℕ)
    (h : batchRanges (min chunk cfg.n) cfg.bsz = []) :
    ∀ st, singleEpoch cfg chunk st = (st, 0, 0) := by
  intro st
  unfold singleEpoch
  rw [h]
  rfl

/-- Claim C8: for every model, `fit(chunk_size=0)` performs zero training
steps (an empty step trace) and leaves the Model Parameters exactly at their
initial value. -/
theorem c8_chunk_zero_no_steps {P : Type} (cfg : DualCfg P) (scfg : SingleCfg P)
    (p q r : P) (hb : 0 < cfg.bsz) (hsb : 0 < scfg.bsz) :
    (nnFit cfg 0 p).1.params = p ∧ (nnFit cfg 0 p).1.trace = []
    ∧ (rnnFit cfg 0 q).1.params = q ∧ (rnnFit cfg 0 q).1.trace = []
    ∧ (singleFit scfg 0 r).1.params = r ∧ (singleFit scfg 0 r).1.trace = [] := by
  have h1 : batchRanges (min 0 cfg.l0_len) cfg.bsz = [] :=
    batchRanges_nil hb (by omega)
  have h2 : batchRanges 0 cfg.bsz = [] := batchRanges_nil hb (by omega)
  have h3 : batchRanges (min 0 scfg.n) scfg.bsz = [] :=
    batchRanges_nil hsb (by omega)
  have hn := (runEpochs_of_trivial (nnEpoch cfg 0) (nnEpoch_of_nil cfg 0 h1)
    cfg.epochs ⟨p, []⟩).1
  have hr := (runEpochs_of_trivial (rnnEpoch cfg 0) (rnnEpoch_of_nil cfg 0 h2)
    cfg.epochs ⟨q, [], 0, 0, 0⟩).1
  have hs := (runEpochs_of_trivial (singleEpoch scfg 0) (singleEpoch_of_nil scfg 0 h3)
    scfg.epochs ⟨r, []⟩).1
  unfold nnFit rnnFit singleFit
  rw [hn, hr, hs]
  exact ⟨rfl, rfl, rfl, rfl, rfl, rfl⟩

/-- Witness for `c8_chunk_zero_no_steps` at a concrete configuration
(batch size 16, three datasets of sizes 20/20/20, single dataset of size 5). -/
theorem c8_chunk_zero_no_steps_witness :
    (nnFit (⟨16, 10, 20, 20, 20, fun _ _ _ => 1, fun p _ _ => p + 1⟩ : DualCfg ℕ)
      0 7).1.params = 7
    ∧ (singleFit (⟨16, 10, 5, fun _ _ => 1, fun p _ => p + 1⟩ : SingleCfg ℕ)
      0 9).1.trace = [] := by
  have h := c8_chunk_zero_no_steps
    (⟨16, 10, 20, 20, 20, fun _ _ _ => 1, fun p _ _ => p + 1⟩ : DualCfg ℕ)
    (⟨16, 10, 5, fun _ _ => 1, fun p _ => p + 1⟩ : SingleCfg ℕ)
    7 8 9 (by decide) (by decide)
  exact ⟨h.1, h.2.2.2.2.2⟩

/-- Claim C10: whenever `chunk_size ≤ batch_size` (so no minibatch position is
visited in an epoch) and at least one epoch is configured, every variant's
`fit` performs zero optimizer steps and then aborts with the Python
`ZeroDivisionError` raised by `curr_loss / batches` at the end of the first
epoch (the flag component is `true`). -/
theorem c10_zero_batches_division_error {P : Type} (cfg : DualCfg P)
    (scfg : SingleCfg P) (chunk : ℕ) (p q r : P)
    (hb : 0 < cfg.bsz) (hsb : 0 < scfg.bsz)
    (he : 0 < cfg.epochs) (hse : 0 < scfg.epochs)
    (hc : chunk ≤ cfg.bsz) (hsc : chunk ≤ scfg.bsz) :
    (nnFit cfg chunk p).1.trace = [] ∧ (nnFit cfg chunk p).2.2 = true
    ∧ (rnnFit cfg chunk q).1.trace = [] ∧ (rnnFit cfg chunk q).2.2 = true
    ∧ (singleFit scfg chunk r).1.trace = []
    ∧ (singleFit scfg chunk r).2.2 = true := by
  have h1 : batchRanges (min chunk cfg.l0_len) cfg.bsz = [] :=
    batchRanges_nil hb (by omega)
  have h2 : batchRanges chunk cfg.bsz = [] := batchRanges_nil hb hc
  have h3 : batchRanges (min chunk scfg.n) scfg.bsz = [] :=
    batchRanges_nil hsb (by omega)
  have hn := runEpochs_of_trivial (nnEpoch cfg chunk) (nnEpoch_of_nil cfg chunk h1)
    cfg.epochs ⟨p, []⟩
  have hr := runEpochs_of_trivial (rnnEpoch cfg chunk) (rnnEpoch_of_nil cfg chunk h2)
    cfg.epochs ⟨q, [], 0, 0, 0⟩
  have hs := runEpochs_of_trivial (singleEpoch scfg chunk)
    (singleEpoch_of_nil scfg chunk h3) scfg.epochs ⟨r, []⟩
  unfold nnFit rnnFit singleFit
  rw [hn.1, hr.1, hs.1]
  exact ⟨rfl, hn.2 he, rfl, hr.2 he, rfl, hs.2 hse⟩

/-- Witness for `c10_zero_batches_division_error` with `chunk_size = 10`,
`batch_size = 16`, one epoch. -/
theorem c10_zero_batches_division_error_witness :
    (nnFit (⟨16, 1, 20, 20, 20, fun _ _ _ => 1, fun p _ _ => p + 1⟩ : DualCfg ℕ)
      10 0).2.2 = true
    ∧ (rnnFit (⟨16, 1, 20, 20, 20, fun _ _ _ => 1, fun p _ _ => p + 1⟩ : DualCfg ℕ)
      10 0).1.trace = [] := by
  have h := c10_zero_batches_division_error
    (⟨16, 1, 20, 20, 20, fun _ _ _ => 1, fun p _ _ => p + 1⟩ : DualCfg ℕ)
    (⟨16, 1, 5, fun _ _ => 1, fun p _ => p + 1⟩ : SingleCfg ℕ)
    10 0 0 0 (by decide) (by decide) (by decide) (by decide) (by decide) (by decide)
  exact ⟨h.2.1, h.2.2.1⟩

/-! ### Boundary exclusion of full levels (claim C7) -/

lemma nnPos_lvlCount {P : Type} (cfg : DualCfg P) {k : ℕ} (hk : k < 3)
    {se : ℕ × ℕ} (hg : ¬ se.2 < cfg.lenAt k) (x : FitSt P × ℚ × ℕ) :
    lvlCount k ((nnPos cfg x se).1.trace) = lvlCount k (x.1.trace) := by
  interval_cases k <;>
    simp only [DualCfg.lenAt] at hg <;>
    by_cases h0 : se.2 < cfg.l0_len <;> by_cases h1 : se.2 < cfg.l1_len <;>
    by_cases h2 : se.2 < cfg.l2_len <;>
    first
      | exact absurd h0 hg
      | exact absurd h1 hg
      | exact absurd h2 hg
      | simp [nnPos, doStep, h0, h1, h2, lvlCount]

lemma rnnPos_lvlCount {P : Type} (cfg : DualCfg P) {k : ℕ} (hk : k < 3)
    {se : ℕ × ℕ} (hg : ¬ se.2 < cfg.lenAt k) (x : RnnSt P × ℚ × ℕ) :
    lvlCount k ((rnnPos cfg x se).1.trace) = lvlCount k (x.1.trace) := by
  interval_cases k <;>
    simp only [DualCfg.lenAt] at hg <;>
    by_cases h0 : se.2 < cfg.l0_len <;> by_cases h1 : se.2 < cfg.l1_len <;>
    by_cases h2 : se.2 < cfg.l2_len <;>
    first
      | exact absurd h0 hg
      | exact absurd h1 hg
      | exact absurd h2 hg
      | simp [rnnPos, h0, h1, h2, lvlCount]

lemma foldl_nnPos_lvlCount {P : Type} (cfg : DualCfg P) {k : ℕ} (hk : k < 3) :
    ∀ (L : List (ℕ × ℕ)), (∀ se ∈ L, ¬ se.2 < cfg.lenAt k) →
    ∀ x, lvlCount k ((L.foldl (nnPos cfg) x).1.trace) = lvlCount k (x.1.trace) := by
  intro L
  induction L with
  | nil => intro _ x; rfl
  | cons se L ih =>
    intro h x
    rw [List.foldl_cons, ih (fun a ha => h a (List.mem_cons_of_mem _ ha)),
      nnPos_lvlCount cfg hk (h se (by simp)) x]

lemma foldl_rnnPos_lvlCount {P : Type} (cfg : DualCfg P) {k : ℕ} (hk : k < 3) :
    ∀ (L : List (ℕ × ℕ)), (∀ se ∈ L, ¬ se.2 < cfg.lenAt k) →
    ∀ x, lvlCount k ((L.foldl (rnnPos cfg) x).1.trace) = lvlCount k (x.1.trace) := by
  intro L
  induction L with
  | nil => intro _ x; rfl
  | cons se L ih =>
    intro h x
    rw [List.foldl_cons, ih (fun a ha => h a (List.mem_cons_of_mem _ ha)),
      rnnPos_lvlCount cfg hk (h se (by simp)) x]

/-- Claim C7: with `batch_size = 16` and a level holding exactly 16 training
examples, any `fit(chunk_size ≥ 16)` executes exactly zero optimizer steps for
that level in both dual variants — every minibatch end index is at least 16,
and the loop admits a level's minibatch only when `end < len(data)` strictly. -/
theorem c7_boundary_exclusion {P : Type} (cfg : DualCfg P) (chunk : ℕ) (p q : P)
    (k : ℕ) (hk : k < 3) (hbsz : cfg.bsz = 16) (hlen : cfg.lenAt k = 16)
    (hchunk : 16 ≤ chunk) :
    lvlCount k ((nnFit cfg chunk p).1.trace) = 0
    ∧ lvlCount k ((rnnFit cfg chunk q).1.trace) = 0 := by
  have hg : ∀ {n : ℕ}, ∀ se ∈ batchRanges n cfg.bsz, ¬ se.2 < cfg.lenAt k := by
    intro n se hse
    have := mem_batchRanges_snd_ge hse
    omega
  constructor
  · have hepoch : ∀ st : FitSt P,
        lvlCount k ((nnEpoch cfg chunk st).1.trace) = lvlCount k st.trace := by
      intro st
      unfold nnEpoch
      exact foldl_nnPos_lvlCount cfg hk _ hg (st, 0, 0)
    have hfit := runEpochs_inv (nnEpoch cfg chunk)
      (fun st => lvlCount k st.trace) hepoch cfg.epochs ⟨p, []⟩
    simpa [nnFit, lvlCount] using hfit
  · have hepoch : ∀ st : RnnSt P,
        lvlCount k ((rnnEpoch cfg chunk st).1.trace) = lvlCount k st.trace := by
      intro st
      unfold rnnEpoch
      exact foldl_rnnPos_lvlCount cfg hk _ hg (st, 0, 0)
    have hfit := runEpochs_inv (rnnEpoch cfg chunk)
      (fun st => lvlCount k st.trace) hepoch cfg.epochs ⟨q, [], 0, 0, 0⟩
    simpa [rnnFit, lvlCount] using hfit

/-- Witness for `c7_boundary_exclusion`: level L1 with exactly 16 examples,
`batch_size = 16`, `chunk_size = 48`. -/
theorem c7_boundary_exclusion_witness :
    lvlCount 1 ((nnFit
      (⟨16, 2, 40, 16, 20, fun _ _ _ => 1, fun p _ _ => p + 1⟩ : DualCfg ℕ)
      48 0).1.trace) = 0
    ∧ lvlCount 1 ((rnnFit
      (⟨16, 2, 40, 16, 20, fun _ _ _ => 1, fun p _ _ => p + 1⟩ : DualCfg ℕ)
      48 0).1.trace) = 0 := by
  exact c7_boundary_exclusion
    (⟨16, 2, 40, 16, 20, fun _ _ _ => 1, fun p _ _ => p + 1⟩ : DualCfg ℕ)
    48 0 0 1 (by decide) rfl rfl (by decide)

end GLAMDP
